import Mathlib

/-
  Verification development for the Mythic Beasts DNS provider codec
  (src/octodns/provider/mythicbeasts.py).

  Strings are modelled as lists of characters (`Str`).  The Python regular
  expressions used by the provider are all of the "maximal munch" shape
  (`[0-9]+`, `\s+`, `\S+`, anchored with `^`/`$`), for which greedy matching
  with backtracking coincides with taking maximal runs: a shorter run of
  `[0-9]+`/`\s+`/`\S+` always leaves the next sub-pattern facing a character
  it cannot accept.  The matchers below exploit this and take maximal runs.

  Python exceptions (failed `assert`, IndexError on `[0]` of an empty list,
  `max` of an empty list, attribute errors) are modelled by `Option`:
  a raised exception is `none`.
-/

abbrev Str := List Char

def strL (s : String) : Str := s.toList

/-- Python `\s` on the characters the provider's wire protocol can carry
    (ASCII whitespace). -/
def isSpaceChar (c : Char) : Bool :=
  c = ' ' || c = '\t' || c = '\n' || c = '\r' || c = '\x0b' || c = '\x0c'

/-- Python `[0-9]` (and `\d` for the ASCII lines of this protocol). -/
def isDigitChar (c : Char) : Bool :=
  48 ≤ c.toNat && c.toNat ≤ 57

/-- Python `value.endswith('.')`. -/
def endsWithDot (s : Str) : Bool :=
  match s.getLast? with
  | some c => c = '.'
  | none => false

/-- `add_trailing_dot` (mythicbeasts.py lines 17-23): asserts a non-empty
    value without a trailing dot, then appends `'.'`.  A failed assertion is
    `none`. -/
def add_trailing_dot (v : Str) : Option Str :=
  if v = [] then none
  else if endsWithDot v then none
  else some (v ++ ['.'])

/-- `remove_trailing_dot` (mythicbeasts.py lines 26-32): asserts a non-empty
    value with a trailing dot, then drops the last character (`value[:-1]`). -/
def remove_trailing_dot (v : Str) : Option Str :=
  if v = [] then none
  else if endsWithDot v then some v.dropLast
  else none

/-- One decoded protocol line's payload: `{'value': ..., 'ttl': ...}`. -/
structure RawValue where
  value : Str
  ttl : Nat
deriving DecidableEq

/-- The dict passed to a `_data_for_*` decoder by `populate`:
    `{'raw_values': [...], 'name': ..., 'zone': zone.name}`. -/
structure RawValueGroup where
  name : Str
  zone : Str
  raw_values : List RawValue
deriving DecidableEq

/-- A decoded record value: either plain text (A/AAAA/NS/TXT/CNAME/ALIAS) or
    one of the structured dict shapes built by the MX/SRV/SSHFP/CAA
    decoders. -/
inductive RValue where
  | plain (v : Str)
  | mx (preference exchange : Str)
  | srv (priority weight port target : Str)
  | sshfp (algorithm fingerprint_type fingerprint : Str)
  | caa (flags tag value : Str)
deriving DecidableEq

/-- The descriptor dict returned by a decoder: a `'value'` key for
    single-valued types, a `'values'` key for multi-valued ones. -/
inductive RecordData where
  | single (rtype : Str) (value : RValue) (ttl : Nat)
  | multiple (rtype : Str) (values : List RValue) (ttl : Nat)
deriving DecidableEq

def RecordData.ttl : RecordData → Nat
  | .single _ _ t => t
  | .multiple _ _ t => t

def RecordData.rtype : RecordData → Str
  | .single t _ _ => t
  | .multiple t _ _ => t

def RecordData.valueList : RecordData → List RValue
  | .single _ v _ => [v]
  | .multiple _ vs _ => vs

/-- Replace the declared type of a descriptor, leaving value(s) and ttl. -/
def RecordData.withType : RecordData → Str → RecordData
  | .single _ v t, ty => .single ty v t
  | .multiple _ vs t, ty => .multiple ty vs t

/-- Python `max(ttl list)`; the decoders only apply it to non-empty lists
    (on `[]` Python raises, which the decoders model as `none` upfront). -/
def maxTTL (l : List RawValue) : Nat :=
  (l.map RawValue.ttl).foldl Nat.max 0

/-- The qualification idiom repeated in `_data_for_MX` / `_data_for_SRV` /
    `_data_for_CNAME`:
    `if not v.endswith('.'): v = '{}.{}'.format(v, data['zone'])`. -/
def qualify (zone v : Str) : Str :=
  if endsWithDot v then v else v ++ '.' :: zone

/-- `[0-9]+` then `\s+` (both non-empty, maximal runs); returns the digit
    group and the rest of the input. -/
def munchDigitsWs (s : Str) : Option (Str × Str) :=
  let d := s.takeWhile isDigitChar
  let r := s.dropWhile isDigitChar
  let w := r.takeWhile isSpaceChar
  let r2 := r.dropWhile isSpaceChar
  if !d.isEmpty && !w.isEmpty then some (d, r2) else none

/-- `(\S+)$`: the whole rest is one non-empty run without whitespace. -/
def nonWsToEnd (s : Str) : Bool :=
  !s.isEmpty && s.all (fun c => !isSpaceChar c)

/-- `re.match('^([0-9]+)\s+(\S+)$', s)` (the MX value grammar); returns the
    two groups. -/
def matchMX (s : Str) : Option (Str × Str) :=
  match munchDigitsWs s with
  | none => none
  | some (d, r) => if nonWsToEnd r then some (d, r) else none

/-- `re.match('^([0-9]+)\s+([0-9]+)\s+([0-9]+)\s+(\S+)$', s)` (SRV). -/
def matchSRV (s : Str) : Option (Str × Str × Str × Str) :=
  match munchDigitsWs s with
  | none => none
  | some (p, r1) =>
    match munchDigitsWs r1 with
    | none => none
    | some (w, r2) =>
      match munchDigitsWs r2 with
      | none => none
      | some (pt, r3) =>
        if nonWsToEnd r3 then some (p, w, pt, r3) else none

/-- `re.match('^([0-9]+)\s+([0-9]+)\s+(\S+)$', s)` (SSHFP). -/
def matchSSHFP (s : Str) : Option (Str × Str × Str) :=
  match munchDigitsWs s with
  | none => none
  | some (a, r1) =>
    match munchDigitsWs r1 with
    | none => none
    | some (ft, r2) =>
      if nonWsToEnd r2 then some (a, ft, r2) else none

/-- Case-insensitive literal prefix (`re.IGNORECASE` on the CAA tag
    alternation); returns the rest of the input on success. -/
def stripPrefixCI : Str → Str → Option Str
  | [], s => some s
  | _ :: _, [] => none
  | p :: ps, c :: cs => if p.toLower = c.toLower then stripPrefixCI ps cs else none

/-- `\s+(\S+)$`: whitespace then the final group. -/
def wsNonWsToEnd (s : Str) : Option Str :=
  let w := s.takeWhile isSpaceChar
  let r := s.dropWhile isSpaceChar
  if !w.isEmpty && nonWsToEnd r then some r else none

/-- Try one alternative of `(issue|issuewild|iodef)` followed by
    `\s+(\S+)$`; on success returns the tag text as matched in the input
    (original case, as Python's `group(2)` does) and the final group. -/
def tryTag (tag : Str) (r : Str) : Option (Str × Str) :=
  match stripPrefixCI tag r with
  | none => none
  | some rest =>
    match wsNonWsToEnd rest with
    | none => none
    | some v => some (r.take tag.length, v)

/-- `re.match('^([0-9]+)\s+(issue|issuewild|iodef)\s+(\S+)$', s, re.IGNORECASE)`
    (CAA).  The alternatives are tried in the regex's order; `issue` only
    wins when it is followed by whitespace, otherwise the engine backtracks
    to `issuewild` / `iodef`. -/
def matchCAA (s : Str) : Option (Str × Str × Str) :=
  match munchDigitsWs s with
  | none => none
  | some (flags, r) =>
    match tryTag (strL "issue") r with
    | some (tag, v) => some (flags, tag, v)
    | none =>
      match tryTag (strL "issuewild") r with
      | some (tag, v) => some (flags, tag, v)
      | none =>
        match tryTag (strL "iodef") r with
        | some (tag, v) => some (flags, tag, v)
        | none => none

/-- Option-valued map over a list: `some` of the image when every element
    maps to `some`, `none` as soon as one element fails.  This is the shape
    of the decoders' `for raw_value in ...: assert match is not None; ...`
    loops (one failed assertion aborts the whole decode). -/
def optMap (f : α → Option β) : List α → Option (List β)
  | [] => some []
  | a :: as_ =>
    match f a with
    | none => none
    | some b =>
      match optMap f as_ with
      | none => none
      | some bs => some (b :: bs)

/-- `_data_for_single` (lines 96-102): reads `raw_values[0]` of whatever
    value/ttl pairs it is handed (plain text from `populate`, a structured
    dict from `_data_for_CAA`). -/
def _data_for_single (t : Str) (raw : List (RValue × Nat)) : Option RecordData :=
  match raw with
  | [] => none
  | (v, ttl) :: _ => some (.single t v ttl)

/-- The raw values of a group as the pairs `_data_for_single` consumes when
    it is dispatched directly on a group. -/
def rawPairs (g : RawValueGroup) : List (RValue × Nat) :=
  g.raw_values.map (fun rv => (.plain rv.value, rv.ttl))

/-- `_data_for_multiple` (lines 104-112): all values in order, max ttl. -/
def _data_for_multiple (_t : Str) (g : RawValueGroup) : Option RecordData :=
  match g.raw_values with
  | [] => none
  | _ => some (.multiple _t (g.raw_values.map (fun rv => .plain rv.value)) (maxTTL g.raw_values))

/-- Loop body of `_data_for_MX` (lines 119-133): match the MX grammar,
    qualify a relative exchange against the zone. -/
def mxValueFor (zone raw : Str) : Option RValue :=
  match matchMX raw with
  | none => none
  | some (pref, exch) => some (.mx pref (qualify zone exch))

/-- `_data_for_MX` (lines 114-139). -/
def _data_for_MX (_t : Str) (g : RawValueGroup) : Option RecordData :=
  match g.raw_values with
  | [] => none
  | _ =>
    match optMap (fun rv => mxValueFor g.zone rv.value) g.raw_values with
    | none => none
    | some vs => some (.multiple _t vs (maxTTL g.raw_values))

/-- Loop body of `_data_for_SRV` (lines 169-188). -/
def srvValueFor (zone raw : Str) : Option RValue :=
  match matchSRV raw with
  | none => none
  | some (p, w, pt, tg) => some (.srv p w pt (qualify zone tg))

/-- `_data_for_SRV` (lines 164-194). -/
def _data_for_SRV (_t : Str) (g : RawValueGroup) : Option RecordData :=
  match g.raw_values with
  | [] => none
  | _ =>
    match optMap (fun rv => srvValueFor g.zone rv.value) g.raw_values with
    | none => none
    | some vs => some (.multiple _t vs (maxTTL g.raw_values))

/-- Loop body of `_data_for_SSHFP` (lines 201-214); no qualification. -/
def sshfpValueFor (raw : Str) : Option RValue :=
  match matchSSHFP raw with
  | none => none
  | some (a, ft, f) => some (.sshfp a ft f)

/-- `_data_for_SSHFP` (lines 196-220). -/
def _data_for_SSHFP (_t : Str) (g : RawValueGroup) : Option RecordData :=
  match g.raw_values with
  | [] => none
  | _ =>
    match optMap (fun rv => sshfpValueFor rv.value) g.raw_values with
    | none => none
    | some vs => some (.multiple _t vs (maxTTL g.raw_values))

/-- `_data_for_CNAME` (lines 141-152): first raw value, qualified when
    relative, re-wrapped through `_data_for_single` under the given type. -/
def _data_for_CNAME (t : Str) (g : RawValueGroup) : Option RecordData :=
  match g.raw_values with
  | [] => none
  | rv :: _ => _data_for_single t [(.plain (qualify g.zone rv.value), rv.ttl)]

/-- `_data_for_ANAME` (lines 154-162): first raw value passed through
    `_data_for_single` under the hard-coded type `'ALIAS'`; note that unlike
    `_data_for_CNAME` the value is NOT qualified against the zone. -/
def _data_for_ANAME (_t : Str) (g : RawValueGroup) : Option RecordData :=
  match g.raw_values with
  | [] => none
  | rv :: _ => _data_for_single (strL "ALIAS") [(.plain rv.value, rv.ttl)]

/-- `_data_for_CAA` (lines 222-242): only `raw_values[0]` is consulted. -/
def _data_for_CAA (_t : Str) (g : RawValueGroup) : Option RecordData :=
  match g.raw_values with
  | [] => none
  | rv :: _ =>
    match matchCAA rv.value with
    | none => none
    | some (flags, tag, v) =>
      _data_for_single (strL "CAA") [(.caa flags tag v, rv.ttl)]

/-- The decoder table realised by `hasattr(self, '_data_for_TYPE')` /
    `getattr` dynamic dispatch: the class carries `_data_for_` attributes
    for A, AAAA, NS, TXT (aliases of `_data_for_multiple`), MX, CNAME,
    ANAME, SRV, SSHFP, CAA — and also the helper names `single` and
    `multiple` themselves, which `hasattr` finds just the same. -/
def lookupDataFor (t : Str) : Option (Str → RawValueGroup → Option RecordData) :=
  if t = strL "A" || t = strL "AAAA" || t = strL "NS" || t = strL "TXT" then
    some _data_for_multiple
  else if t = strL "MX" then some _data_for_MX
  else if t = strL "CNAME" then some _data_for_CNAME
  else if t = strL "ANAME" then some _data_for_ANAME
  else if t = strL "SRV" then some _data_for_SRV
  else if t = strL "SSHFP" then some _data_for_SSHFP
  else if t = strL "CAA" then some _data_for_CAA
  else if t = strL "single" then some (fun ty g => _data_for_single ty (rawPairs g))
  else if t = strL "multiple" then some _data_for_multiple
  else none

/-- Python `str.strip()` on a decoded line's value field. -/
def stripStr (s : Str) : Str :=
  ((s.dropWhile isSpaceChar).reverse.dropWhile isSpaceChar).reverse

/-- `_value.replace(';', '\\;')` applied to TXT values in `populate`
    (line 280): every `';'` becomes the two characters `\;`, with no regard
    for an already-present backslash. -/
def escapeTXT : Str → Str
  | [] => []
  | c :: rest => (if c = ';' then ['\\', ';'] else [c]) ++ escapeTXT rest

/-- `int(...)` on the TTL digit group. -/
def digitsToNat (s : Str) : Nat :=
  s.foldl (fun a c => a * 10 + (c.toNat - 48)) 0

/-- `re.match('^(\S+)\s+(\d+)\s+(\S+)\s+(.*)$', line)` in `populate`
    (lines 261-264): owner, ttl, type, and the raw remainder of the line. -/
def parseLine (line : Str) : Option (Str × Nat × Str × Str) :=
  let g1 := line.takeWhile (fun c => !isSpaceChar c)
  let r1 := line.dropWhile (fun c => !isSpaceChar c)
  let w1 := r1.takeWhile isSpaceChar
  let r1b := r1.dropWhile isSpaceChar
  let g2 := r1b.takeWhile isDigitChar
  let r2 := r1b.dropWhile isDigitChar
  let w2 := r2.takeWhile isSpaceChar
  let r2b := r2.dropWhile isSpaceChar
  let g3 := r2b.takeWhile (fun c => !isSpaceChar c)
  let r3 := r2b.dropWhile (fun c => !isSpaceChar c)
  let w3 := r3.takeWhile isSpaceChar
  let g4 := r3.dropWhile isSpaceChar
  if !g1.isEmpty && !w1.isEmpty && !g2.isEmpty && !w2.isEmpty &&
      !g3.isEmpty && !w3.isEmpty then
    some (g1, digitsToNat g2, g3, g4)
  else none

/-- The grouping state `data` built by `populate`: a type-keyed,
    insertion-ordered table of name-keyed, insertion-ordered tables of
    value groups (Python dicts preserve insertion order). -/
abbrev Groups := List (Str × List (Str × RawValueGroup))

def addRaw (g : RawValueGroup) (rv : RawValue) : RawValueGroup :=
  { g with raw_values := g.raw_values ++ [rv] }

def insertName (inner : List (Str × RawValueGroup)) (name zone : Str)
    (rv : RawValue) : List (Str × RawValueGroup) :=
  match inner with
  | [] => [(name, ⟨name, zone, [rv]⟩)]
  | (n, g) :: rest =>
    if n = name then (n, addRaw g rv) :: rest
    else (n, g) :: insertName rest name zone rv

def insertGroups (gs : Groups) (t name zone : Str) (rv : RawValue) : Groups :=
  match gs with
  | [] => [(t, [(name, ⟨name, zone, [rv]⟩)])]
  | (t0, inner) :: rest =>
    if t0 = t then (t0, insertName inner name zone rv) :: rest
    else (t0, inner) :: insertGroups rest t name zone rv

/-- One iteration of `populate`'s line loop (lines 260-299): parse the
    line, normalise `@`, strip the value, escape TXT `';'`, and either
    group the raw value (type supported) or skip the line. -/
def processLine (zone : Str) (gs : Groups) (line : Str) : Groups :=
  match parseLine line with
  | none => gs
  | some (owner, ttl, t, v) =>
    let name := if owner = strL "@" then [] else owner
    let v1 := stripStr v
    let v2 := if t = strL "TXT" then escapeTXT v1 else v1
    if (lookupDataFor t).isSome then insertGroups gs t name zone ⟨v2, ttl⟩
    else gs

/-- Dispatch `getattr(self, '_data_for_TYPE')(type, group)` (line 303-308). -/
def applyDecoder (t : Str) (g : RawValueGroup) : Option RecordData :=
  match lookupDataFor t with
  | none => none
  | some f => f t g

/-- The record-construction loop of `populate` (lines 301-311): for each
    grouped (type, name) in insertion order, the decoded descriptor. -/
def decodeAll : Groups → List (Str × Str × Option RecordData)
  | [] => []
  | (t, inner) :: rest =>
    inner.map (fun p => (t, p.1, applyDecoder t p.2)) ++ decodeAll rest

/-- The decode pass of `populate` over the LIST response's lines. -/
def populateModel (zone : Str) (lines : List Str) :
    List (Str × Str × Option RecordData) :=
  decodeAll (lines.foldl (processLine zone) [])

/-- A record as the command compiler sees it (the `Record` collaborator):
    `fqdn`, `ttl`, `_type`, and the value list (`record.values` when the
    record is multi-valued, else `[record.value]`; `_compile_commands`
    normalises to exactly this list at lines 335-338). -/
structure CRecord where
  fqdn : Str
  ttl : Nat
  rtype : Str
  vals : List RValue
deriving DecidableEq

/-- A change: `Create` has only `new`, `Delete` only `existing`, `Update`
    both. -/
structure Change where
  existing : Option CRecord
  new : Option CRecord
deriving DecidableEq

/-- `str(value)` at the compiler's `'{} {}'.format(base, value)` call
    sites.  In the source those sites only ever receive plain text values
    (A/AAAA/ANAME values and the first value of NS/TXT/CNAME/CAA records);
    structured values are rendered field-by-field in their own branches.
    The structured fall-backs here are never exercised by a well-formed
    record. -/
def RValue.render : RValue → Str
  | .plain v => v
  | .mx p e => p ++ ' ' :: e
  | .srv p w pt tg => p ++ ' ' :: (w ++ ' ' :: (pt ++ ' ' :: tg))
  | .sshfp a ft f => a ++ ' ' :: (ft ++ ' ' :: f)
  | .caa fl tg v => fl ++ ' ' :: (tg ++ ' ' :: v)

def digitChar (n : Nat) : Char := Char.ofNat (48 + n)

def natToStrGo : Nat → Nat → Str
  | 0, _ => []
  | fuel + 1, n =>
    if n < 10 then [digitChar n]
    else natToStrGo fuel (n / 10) ++ [digitChar (n % 10)]

/-- Python `'{}'.format(ttl)` for a non-negative integer. -/
def natToStr (n : Nat) : Str := natToStrGo (n + 1) n

def sp : Str := [' ']

/-- `re.match('[A]{1,4}', _type) is not None` (line 342): the pattern is
    unanchored at the right and needs only one `'A'`, so it succeeds
    exactly when the type's first character is `'A'`. -/
def matchA1to4 (t : Str) : Bool :=
  match t with
  | [] => false
  | c :: _ => c = 'A'

/-- The body of `_compile_commands` (lines 328-380) once the source record
    has been selected.  `none` models a raised exception (fqdn without
    trailing dot, `values[0]` of an empty list, or a `.data[...]` access on
    a value of the wrong shape); `some []` is the "skipping as not
    supported" outcome. -/
def compileRecord (action : Str) (r : CRecord) : Option (List Str) :=
  match remove_trailing_dot r.fqdn with
    | none => none
    | some hostname =>
      let t := if r.rtype = strL "ALIAS" then strL "ANAME" else r.rtype
      let base := action ++ sp ++ hostname ++ sp ++ natToStr r.ttl ++ sp ++ t
      if matchA1to4 t then
        some (r.vals.map (fun v => base ++ sp ++ v.render))
      else if t = strL "SSHFP" then
        match r.vals with
        | [] => none
        | v :: _ =>
          match v with
          | .sshfp a ft f =>
            some [base ++ sp ++ a ++ sp ++ ft ++ sp ++ f]
          | _ => none
      else if t = strL "SRV" then
        optMap (fun v =>
          match v with
          | RValue.srv p w pt tg =>
            some (base ++ sp ++ p ++ sp ++ w ++ sp ++ pt ++ sp ++ tg)
          | _ => none) r.vals
      else if t = strL "MX" then
        optMap (fun v =>
          match v with
          | RValue.mx p e => some (base ++ sp ++ p ++ sp ++ e)
          | _ => none) r.vals
      else
        if (lookupDataFor t).isSome then
          match r.vals with
          | [] => none
          | v :: _ => some [base ++ sp ++ v.render]
        else some []

/-- `_compile_commands` (lines 318-380): select `change.new` for `ADD`,
    `change.existing` otherwise (a missing record is a raised attribute
    error, i.e. `none`), then compile. -/
def _compile_commands (action : Str) (ch : Change) : Option (List Str) :=
  match (if action = strL "ADD" then ch.new else ch.existing) with
  | none => none
  | some r => compileRecord action r

/-- `_apply_Create` (lines 382-393): compile the ADD commands and post them
    in order; `log` is the sequence of commands submitted so far. -/
def _apply_Create (ch : Change) (log : List Str) : Option (List Str) :=
  match _compile_commands (strL "ADD") ch with
  | none => none
  | some cmds => some (log ++ cmds)

/-- `_apply_Delete` (lines 399-410). -/
def _apply_Delete (ch : Change) (log : List Str) : Option (List Str) :=
  match _compile_commands (strL "DELETE") ch with
  | none => none
  | some cmds => some (log ++ cmds)

/-- `_apply_Update` (lines 395-397): delete then create. -/
def _apply_Update (ch : Change) (log : List Str) : Option (List Str) :=
  match _apply_Delete ch log with
  | none => none
  | some log2 => _apply_Create ch log2

example : matchMX (strL "10 mail") = some (strL "10", strL "mail") := by decide
example : matchMX (strL "10 mail x") = none := by decide
example : matchSRV (strL "10 20 5060 sip") =
    some (strL "10", strL "20", strL "5060", strL "sip") := by decide
example : matchCAA (strL "0 issue letsencrypt.org") =
    some (strL "0", strL "issue", strL "letsencrypt.org") := by decide
example : matchCAA (strL "0 issuewild x.org") =
    some (strL "0", strL "issuewild", strL "x.org") := by decide
example : matchCAA (strL "0 bogus x") = none := by decide
example :
    _data_for_CNAME (strL "CNAME") ⟨strL "www", strL "example.com.", [⟨strL "target", 300⟩]⟩ =
    some (.single (strL "CNAME") (.plain (strL "target.example.com.")) 300) := by decide
example :
    _data_for_ANAME (strL "ANAME") ⟨strL "www", strL "example.com.", [⟨strL "target", 300⟩]⟩ =
    some (.single (strL "ALIAS") (.plain (strL "target")) 300) := by decide

lemma le_foldl_max (l : List Nat) (a : Nat) : a ≤ l.foldl Nat.max a := by
  induction l generalizing a with
  | nil => exact Nat.le_refl a
  | cons x xs ih => exact Nat.le_trans (Nat.le_max_left a x) (ih (Nat.max a x))

lemma mem_le_foldl_max (l : List Nat) : ∀ (a x : Nat), x ∈ l →
    x ≤ l.foldl Nat.max a := by
  induction l with
  | nil =>
    intro a x hx
    cases hx
  | cons y ys ih =>
    intro a x hx
    rw [List.foldl_cons]
    rcases List.mem_cons.mp hx with h | h
    · subst h
      exact Nat.le_trans (Nat.le_max_right a x) (le_foldl_max ys _)
    · exact ih _ x h

lemma foldl_max_eq_init_or_mem (l : List Nat) : ∀ (a : Nat),
    l.foldl Nat.max a = a ∨ l.foldl Nat.max a ∈ l := by
  induction l with
  | nil => exact fun a => Or.inl rfl
  | cons x xs ih =>
    intro a
    rw [List.foldl_cons]
    rcases ih (Nat.max a x) with h | h
    · rw [h]
      have hm : Nat.max a x = a ∨ Nat.max a x = x := by
        rcases Nat.le_total a x with hle | hle
        · exact Or.inr (Nat.max_eq_right hle)
        · exact Or.inl (Nat.max_eq_left hle)
      rcases hm with hm | hm
      · exact Or.inl hm
      · exact Or.inr (by rw [hm]; exact List.mem_cons_self x xs)
    · exact Or.inr (List.mem_cons_of_mem x h)

lemma maxTTL_ge (l : List RawValue) (x : RawValue) (hx : x ∈ l) :
    x.ttl ≤ maxTTL l :=
  mem_le_foldl_max (l.map RawValue.ttl) 0 x.ttl (List.mem_map_of_mem RawValue.ttl hx)

lemma maxTTL_attained (l : List RawValue) (hl : l ≠ []) :
    ∃ x ∈ l, maxTTL l = x.ttl := by
  rcases foldl_max_eq_init_or_mem (l.map RawValue.ttl) 0 with h | h
  · obtain ⟨y, ys, rfl⟩ := List.exists_cons_of_ne_nil hl
    have hy : y.ttl ≤ maxTTL (y :: ys) := maxTTL_ge _ y (List.mem_cons_self y ys)
    have h0 : maxTTL (y :: ys) = 0 := h
    exact ⟨y, List.mem_cons_self y ys, by omega⟩
  · obtain ⟨x, hx, hxt⟩ := List.mem_map.mp h
    exact ⟨x, hx, hxt.symm⟩

lemma optMap_eq_none_of_mem {f : α → Option β} {l : List α} {a : α}
    (ha : a ∈ l) (hfa : f a = none) : optMap f l = none := by
  induction l with
  | nil => cases ha
  | cons x xs ih =>
    rcases List.mem_cons.mp ha with h | h
    · subst h
      simp [optMap, hfa]
    · unfold optMap
      cases hfx : f x with
      | none => rfl
      | some b => rw [ih h]

lemma mem_of_optMap_some {f : α → Option β} :
    ∀ {l : List α} {bs : List β}, optMap f l = some bs →
      ∀ {a : α} {b : β}, a ∈ l → f a = some b → b ∈ bs := by
  intro l
  induction l with
  | nil =>
    intro bs _ a b ha _
    cases ha
  | cons x xs ih =>
    intro bs hmap a b ha hfa
    unfold optMap at hmap
    cases hfx : f x with
    | none => rw [hfx] at hmap; cases hmap
    | some c =>
      rw [hfx] at hmap
      cases hrest : optMap f xs with
      | none => rw [hrest] at hmap; cases hmap
      | some cs =>
        rw [hrest] at hmap
        have hbs : c :: cs = bs := by injection hmap
        subst hbs
        rcases List.mem_cons.mp ha with h | h
        · subst h
          rw [hfx] at hfa
          have hc : c = b := by injection hfa
          subst hc
          exact List.mem_cons_self c cs
        · exact List.mem_cons_of_mem c (ih hrest h hfa)

lemma endsWithDot_append_dot (v : Str) : endsWithDot (v ++ ['.']) = true := by
  simp [endsWithDot, List.getLast?_concat]

lemma dropLast_append_dot (w : Str) (hw : w ≠ []) (h : endsWithDot w = true) :
    w.dropLast ++ ['.'] = w := by
  unfold endsWithDot at h
  cases hl : w.getLast? with
  | none => rw [hl] at h; cases h
  | some c =>
    rw [hl] at h
    have hc : c = '.' := of_decide_eq_true h
    have hg : w.getLast? = some (w.getLast hw) := List.getLast?_eq_getLast w hw
    rw [hl] at hg
    have : w.getLast hw = '.' := by
      injection hg with hg'
      rw [← hg', hc]
    rw [← this]
    exact List.dropLast_append_getLast hw

/-- Claim C10: the TXT escaping applied during line decoding replaces
    every `';'` occurrence unconditionally — also one already preceded by a
    backslash, so a value already containing `\;` becomes `\;` — and the
    transformation is therefore not idempotent: escaping `";"` twice
    differs from escaping it once. -/
theorem claim_C10 :
    (∀ a b : Str, escapeTXT (a ++ ';' :: b) =
        escapeTXT a ++ '\\' :: ';' :: escapeTXT b) ∧
    escapeTXT ['\\', ';'] = ['\\', '\\', ';'] ∧
    escapeTXT (escapeTXT [';']) ≠ escapeTXT [';'] := by
  refine ⟨?_, by decide, by decide⟩
  intro a b
  induction a with
  | nil => simp [escapeTXT]
  | cons c cs ih => simp [escapeTXT, ih]

/-- Claim C9 counterexample: the pair is not a bijection between dot-free
    and dot-terminated non-empty names — the dot-terminated name `"."` has
    no dot-free preimage under `add_trailing_dot`, and `remove_trailing_dot`
    maps it to the empty string, which is not a valid name at all. -/
theorem claim_C9_counterexample :
    remove_trailing_dot ['.'] = some [] ∧
    add_trailing_dot [] = none ∧
    ¬ (∃ v : Str, add_trailing_dot v = some ['.']) := by
  refine ⟨by decide, by decide, ?_⟩
  rintro ⟨v, hv⟩
  unfold add_trailing_dot at hv
  by_cases h1 : v = []
  · rw [if_pos h1] at hv
    cases hv
  · by_cases h2 : endsWithDot v = true
    · rw [if_neg h1, if_pos h2] at hv
      cases hv
    · rw [if_neg h1, if_neg h2] at hv
      have h3 : v ++ ['.'] = ['.'] := by injection hv
      have h4 : v = [] := by
        rcases v with _ | ⟨c, cs⟩
        · rfl
        · simp at h3
      exact h1 h4

/-- Claim C9 (amended): for every non-empty `v` without a trailing dot,
    `remove_trailing_dot (add_trailing_dot v) = v`; each function asserts
    its precondition (non-empty input; absence respectively presence of a
    trailing dot) and fails on any input violating it, so `add_trailing_dot`
    is never idempotent.  The pair is a bijection between dot-free non-empty
    names and those dot-terminated names whose body (the name with the
    final dot removed) is non-empty and dot-free — not between dot-free and
    all dot-terminated non-empty names. -/
theorem claim_C9_amended :
    (∀ v : Str, v ≠ [] → endsWithDot v = false →
        (add_trailing_dot v).bind remove_trailing_dot = some v) ∧
    add_trailing_dot [] = none ∧
    (∀ v : Str, endsWithDot v = true → add_trailing_dot v = none) ∧
    remove_trailing_dot [] = none ∧
    (∀ v : Str, v ≠ [] → endsWithDot v = false → remove_trailing_dot v = none) ∧
    (∀ v : Str, (add_trailing_dot v).bind add_trailing_dot = none) ∧
    (∀ w : Str, w ≠ [] → endsWithDot w = true → w.dropLast ≠ [] →
        endsWithDot w.dropLast = false →
        (remove_trailing_dot w).bind add_trailing_dot = some w) := by
  refine ⟨?_, by decide, ?_, by decide, ?_, ?_, ?_⟩
  · intro v hv hdot
    unfold add_trailing_dot
    rw [if_neg hv, if_neg (by simp [hdot])]
    show remove_trailing_dot (v ++ ['.']) = some v
    unfold remove_trailing_dot
    rw [if_neg (by simp), if_pos (endsWithDot_append_dot v), List.dropLast_concat]
  · intro v hdot
    simp [add_trailing_dot, hdot]
  · intro v hv hdot
    simp [remove_trailing_dot, hv, hdot]
  · intro v
    unfold add_trailing_dot
    by_cases h1 : v = []
    · rw [if_pos h1]
      rfl
    · rw [if_neg h1]
      by_cases h2 : endsWithDot v = true
      · rw [if_pos h2]
        rfl
      · rw [if_neg h2]
        show add_trailing_dot (v ++ ['.']) = none
        unfold add_trailing_dot
        rw [if_neg (by simp), if_pos (endsWithDot_append_dot v)]
  · intro w hw hdot hbody hbodydot
    unfold remove_trailing_dot
    rw [if_neg hw, if_pos hdot]
    show add_trailing_dot w.dropLast = some w
    unfold add_trailing_dot
    rw [if_neg hbody, if_neg (by simp [hbodydot])]
    rw [dropLast_append_dot w hw hdot]

/-- Claim C9 witness: round trips at the concrete names `"www"` and
    `"www."`. -/
theorem claim_C9_witness :
    (add_trailing_dot (strL "www")).bind remove_trailing_dot =
        some (strL "www") ∧
    (remove_trailing_dot (strL "www.")).bind add_trailing_dot =
        some (strL "www.") := by
  constructor
  · exact claim_C9_amended.1 (strL "www") (by decide) (by decide)
  · exact claim_C9_amended.2.2.2.2.2.2 (strL "www.") (by decide) (by decide)
      (by decide) (by decide)

/-- Claim C1 counterexample: decoding the group with the single relative
    raw value `"target"` under zone `"example.com."` as ANAME does not give
    the CNAME decode with its declared type replaced by ALIAS — the CNAME
    decoder qualifies the relative value to `"target.example.com."` while
    the ANAME decoder leaves it as `"target"`. -/
theorem claim_C1_counterexample :
    _data_for_ANAME (strL "ANAME")
        ⟨strL "alias", strL "example.com.", [⟨strL "target", 300⟩]⟩ ≠
      Option.map (fun d => d.withType (strL "ALIAS"))
        (_data_for_CNAME (strL "CNAME")
          ⟨strL "alias", strL "example.com.", [⟨strL "target", 300⟩]⟩) := by
  decide

/-- Claim C1 (amended): for every RawValueGroup whose first raw value is
    already absolute (ends with `'.'`), decoding it as an ANAME record
    produces the same descriptor as decoding it as a CNAME record except
    that the declared type of the result is ALIAS; for a relative first
    value the two differ, because only the CNAME decoder zone-qualifies
    the value. -/
theorem claim_C1_amended (ta tc : Str) (g : RawValueGroup) (rv : RawValue)
    (rest : List RawValue) (hg : g.raw_values = rv :: rest)
    (habs : endsWithDot rv.value = true) :
    _data_for_ANAME ta g =
      Option.map (fun d => d.withType (strL "ALIAS"))
        (_data_for_CNAME tc g) := by
  unfold _data_for_ANAME _data_for_CNAME
  rw [hg]
  dsimp only
  unfold qualify
  rw [if_pos habs]
  rfl

/-- Claim C1 witness: the two decoders agree (up to the declared type) on
    the absolute value `"host.example.com."`. -/
theorem claim_C1_witness :
    _data_for_ANAME (strL "ANAME")
        ⟨strL "w", strL "example.com.", [⟨strL "host.example.com.", 300⟩]⟩ =
      Option.map (fun d => d.withType (strL "ALIAS"))
        (_data_for_CNAME (strL "CNAME")
          ⟨strL "w", strL "example.com.", [⟨strL "host.example.com.", 300⟩]⟩) :=
  claim_C1_amended (strL "ANAME") (strL "CNAME") _ _ _ rfl (by decide)

/-- Claim C2 counterexample: `re.match('[A]{1,4}', _type)` also succeeds on
    the wire type `ANAME` (the rewrite of ALIAS), which is neither `A` nor
    `AAAA`; compiling an ALIAS-typed record with two values indeed emits
    one command per value instead of the single first-value command of the
    fallback branch. -/
theorem claim_C2_counterexample :
    matchA1to4 (strL "ANAME") = true ∧
    strL "ANAME" ≠ strL "A" ∧
    strL "ANAME" ≠ strL "AAAA" ∧
    _compile_commands (strL "ADD")
        ⟨none, some ⟨strL "x.example.com.", 60, strL "ALIAS",
          [.plain (strL "a.example.com."), .plain (strL "b.example.com.")]⟩⟩ =
      some [strL "ADD x.example.com 60 ANAME a.example.com.",
            strL "ADD x.example.com 60 ANAME b.example.com."] := by
  decide

/-- Claim C2 (amended): the per-value `base VALUE` branch of the command
    compiler is taken exactly when the record's wire type (after the
    ALIAS-to-ANAME rewrite) begins with the character `'A'` — among the
    supported wire types that is A, AAAA and also ANAME, and no other; in
    particular an ALIAS record with a dot-terminated fqdn compiles to one
    `base VALUE` command per value under the wire type ANAME. -/
theorem claim_C2_amended :
    (∀ t : Str, matchA1to4 t = true ↔ ∃ r, t = 'A' :: r) ∧
    matchA1to4 (strL "A") = true ∧
    matchA1to4 (strL "AAAA") = true ∧
    matchA1to4 (strL "ANAME") = true ∧
    matchA1to4 (strL "CNAME") = false ∧
    matchA1to4 (strL "MX") = false ∧
    matchA1to4 (strL "NS") = false ∧
    matchA1to4 (strL "SRV") = false ∧
    matchA1to4 (strL "SSHFP") = false ∧
    matchA1to4 (strL "CAA") = false ∧
    matchA1to4 (strL "TXT") = false ∧
    (∀ (r : CRecord) (host : Str), r.rtype = strL "ALIAS" →
      remove_trailing_dot r.fqdn = some host →
      _compile_commands (strL "ADD") ⟨none, some r⟩ =
        some (r.vals.map (fun v =>
          strL "ADD" ++ sp ++ host ++ sp ++ natToStr r.ttl ++ sp ++ strL "ANAME"
            ++ sp ++ v.render))) := by
  refine ⟨?_, by decide, by decide, by decide, by decide, by decide, by decide,
    by decide, by decide, by decide, by decide, ?_⟩
  · intro t
    cases t with
    | nil => simp [matchA1to4]
    | cons c cs =>
      constructor
      · intro h
        have hc : c = 'A' := of_decide_eq_true (show decide (c = 'A') = true from h)
        exact ⟨cs, by rw [hc]⟩
      · rintro ⟨r, hr⟩
        injection hr with h1 _
        show matchA1to4 (c :: cs) = true
        unfold matchA1to4
        rw [h1]
        rfl
  · intro r host hr hhost
    show (match (if strL "ADD" = strL "ADD" then some r else none) with
      | none => none
      | some r => compileRecord (strL "ADD") r) =
      some (r.vals.map (fun v =>
        strL "ADD" ++ sp ++ host ++ sp ++ natToStr r.ttl ++ sp ++ strL "ANAME"
          ++ sp ++ v.render))
    rw [if_pos rfl]
    show compileRecord (strL "ADD") r = _
    unfold compileRecord
    rw [hhost]
    rw [hr]
    rw [if_pos rfl]
    dsimp only
    rw [if_pos (show matchA1to4 (strL "ANAME") = true from rfl)]

/-- Claim C2 witness: an ALIAS record compiled through the per-value
    branch at a concrete input. -/
theorem claim_C2_witness :
    _compile_commands (strL "ADD")
        ⟨none, some ⟨strL "web.example.com.", 30, strL "ALIAS",
          [.plain (strL "host.example.com.")]⟩⟩ =
      some [strL "ADD web.example.com 30 ANAME host.example.com."] :=
  (claim_C2_amended.2.2.2.2.2.2.2.2.2.2.2
    ⟨strL "web.example.com.", 30, strL "ALIAS", [.plain (strL "host.example.com.")]⟩
    (strL "web.example.com") rfl (by decide)).trans (by decide)

/-- Claim C8: compiling a Create change for an A record whose fqdn carries
    a trailing dot yields one `ADD HOST TTL A VALUE` command per value, in
    source value order, with the owner's trailing dot stripped; at fqdn
    `"www.example.com."`, ttl 300 and values `["1.2.3.4","5.6.7.8"]` these
    are exactly `ADD www.example.com 300 A 1.2.3.4` and
    `ADD www.example.com 300 A 5.6.7.8` (see the witness). -/
theorem claim_C8 (r : CRecord) (host : Str) (hA : r.rtype = strL "A")
    (hhost : remove_trailing_dot r.fqdn = some host) :
    _compile_commands (strL "ADD") ⟨none, some r⟩ =
      some (r.vals.map (fun v =>
        strL "ADD" ++ sp ++ host ++ sp ++ natToStr r.ttl ++ sp ++ strL "A"
          ++ sp ++ v.render)) := by
  show (match (if strL "ADD" = strL "ADD" then some r else none) with
    | none => none
    | some r => compileRecord (strL "ADD") r) = _
  rw [if_pos rfl]
  show compileRecord (strL "ADD") r = _
  unfold compileRecord
  rw [hhost]
  rw [hA]
  rw [if_neg (show ¬(strL "A" = strL "ALIAS") by decide)]
  dsimp only
  rw [if_pos (show matchA1to4 (strL "A") = true from rfl)]

/-- Claim C8 witness: the concrete two-value A record named by the claim. -/
theorem claim_C8_witness :
    _compile_commands (strL "ADD")
        ⟨none, some ⟨strL "www.example.com.", 300, strL "A",
          [.plain (strL "1.2.3.4"), .plain (strL "5.6.7.8")]⟩⟩ =
      some [strL "ADD www.example.com 300 A 1.2.3.4",
            strL "ADD www.example.com 300 A 5.6.7.8"] :=
  (claim_C8
    ⟨strL "www.example.com.", 300, strL "A",
      [.plain (strL "1.2.3.4"), .plain (strL "5.6.7.8")]⟩
    (strL "www.example.com") rfl (by decide)).trans (by decide)

/-- Claim C3: for every decoded record, single-valued decoders (single,
    CNAME, ALIAS/ANAME, CAA) return the ttl of the first raw value of the
    group, and multi-valued decoders (multiple — i.e. A, AAAA, NS, TXT —
    and MX, SRV, SSHFP) return the maximum of all raw ttls; `maxTTL` is
    indeed that maximum (an upper bound that is attained). -/
theorem claim_C3 (g : RawValueGroup) (rv : RawValue) (rest : List RawValue)
    (hg : g.raw_values = rv :: rest) :
    (∀ t d, _data_for_single t (rawPairs g) = some d → d.ttl = rv.ttl) ∧
    (∀ t d, _data_for_CNAME t g = some d → d.ttl = rv.ttl) ∧
    (∀ t d, _data_for_ANAME t g = some d → d.ttl = rv.ttl) ∧
    (∀ t d, _data_for_CAA t g = some d → d.ttl = rv.ttl) ∧
    (∀ t d, _data_for_multiple t g = some d → d.ttl = maxTTL g.raw_values) ∧
    (∀ t d, _data_for_MX t g = some d → d.ttl = maxTTL g.raw_values) ∧
    (∀ t d, _data_for_SRV t g = some d → d.ttl = maxTTL g.raw_values) ∧
    (∀ t d, _data_for_SSHFP t g = some d → d.ttl = maxTTL g.raw_values) ∧
    (∀ x ∈ g.raw_values, x.ttl ≤ maxTTL g.raw_values) ∧
    (∃ x ∈ g.raw_values, maxTTL g.raw_values = x.ttl) := by
  refine ⟨?_, ?_, ?_, ?_, ?_, ?_, ?_, ?_, ?_, ?_⟩
  · intro t d hd
    unfold _data_for_single rawPairs at hd
    rw [hg, List.map_cons] at hd
    dsimp only at hd
    injection hd with hd
    rw [← hd]
    rfl
  · intro t d hd
    unfold _data_for_CNAME _data_for_single at hd
    rw [hg] at hd
    dsimp only at hd
    injection hd with hd
    rw [← hd]
    rfl
  · intro t d hd
    unfold _data_for_ANAME _data_for_single at hd
    rw [hg] at hd
    dsimp only at hd
    injection hd with hd
    rw [← hd]
    rfl
  · intro t d hd
    unfold _data_for_CAA at hd
    rw [hg] at hd
    dsimp only at hd
    cases hm : matchCAA rv.value with
    | none => rw [hm] at hd; cases hd
    | some trip =>
      obtain ⟨flags, tag, v⟩ := trip
      rw [hm] at hd
      unfold _data_for_single at hd
      dsimp only at hd
      injection hd with hd
      rw [← hd]
      rfl
  · intro t d hd
    unfold _data_for_multiple at hd
    rw [hg] at hd
    dsimp only at hd
    injection hd with hd
    rw [← hd]
    show maxTTL (rv :: rest) = maxTTL g.raw_values
    rw [hg]
  · intro t d hd
    unfold _data_for_MX at hd
    rw [hg] at hd
    dsimp only at hd
    cases hm : optMap (fun x => mxValueFor g.zone x.value) (rv :: rest) with
    | none => rw [hm] at hd; cases hd
    | some vs =>
      rw [hm] at hd
      injection hd with hd
      rw [← hd]
      show maxTTL (rv :: rest) = maxTTL g.raw_values
      rw [hg]
  · intro t d hd
    unfold _data_for_SRV at hd
    rw [hg] at hd
    dsimp only at hd
    cases hm : optMap (fun x => srvValueFor g.zone x.value) (rv :: rest) with
    | none => rw [hm] at hd; cases hd
    | some vs =>
      rw [hm] at hd
      injection hd with hd
      rw [← hd]
      show maxTTL (rv :: rest) = maxTTL g.raw_values
      rw [hg]
  · intro t d hd
    unfold _data_for_SSHFP at hd
    rw [hg] at hd
    dsimp only at hd
    cases hm : optMap (fun x => sshfpValueFor x.value) (rv :: rest) with
    | none => rw [hm] at hd; cases hd
    | some vs =>
      rw [hm] at hd
      injection hd with hd
      rw [← hd]
      show maxTTL (rv :: rest) = maxTTL g.raw_values
      rw [hg]
  · intro x hx
    exact maxTTL_ge g.raw_values x hx
  · exact maxTTL_attained g.raw_values (by rw [hg]; simp)

/-- Claim C3 witness: a two-value NS-style group with ttls 10 and 30. -/
theorem claim_C3_witness :
    (∀ t d, _data_for_multiple t
        ⟨strL "ns", strL "example.com.",
          [⟨strL "ns1.example.com.", 10⟩, ⟨strL "ns2.example.com.", 30⟩]⟩ =
        some d →
      d.ttl = maxTTL [⟨strL "ns1.example.com.", 10⟩, ⟨strL "ns2.example.com.", 30⟩]) ∧
    (∃ x ∈ [(⟨strL "ns1.example.com.", 10⟩ : RawValue), ⟨strL "ns2.example.com.", 30⟩],
      maxTTL [(⟨strL "ns1.example.com.", 10⟩ : RawValue), ⟨strL "ns2.example.com.", 30⟩] =
        x.ttl) := by
  have h := claim_C3
    ⟨strL "ns", strL "example.com.",
      [⟨strL "ns1.example.com.", 10⟩, ⟨strL "ns2.example.com.", 30⟩]⟩
    ⟨strL "ns1.example.com.", 10⟩ [⟨strL "ns2.example.com.", 30⟩] rfl
  exact ⟨h.2.2.2.2.1, h.2.2.2.2.2.2.2.2.2⟩

/-- Claim C5 counterexample: a CAA group whose second raw value fails the
    CAA grammar decodes successfully (to the descriptor built from the
    first raw value alone) instead of raising a fatal error, because
    `_data_for_CAA` only ever reads `raw_values[0]`. -/
theorem claim_C5_counterexample :
    (∃ rv ∈ ([⟨strL "0 issue ca.example.net", 60⟩,
              ⟨strL "nonsense", 60⟩] : List RawValue),
      matchCAA rv.value = none) ∧
    _data_for_CAA (strL "CAA")
        ⟨strL "caa", strL "example.com.",
          [⟨strL "0 issue ca.example.net", 60⟩, ⟨strL "nonsense", 60⟩]⟩ =
      some (.single (strL "CAA")
        (.caa (strL "0") (strL "issue") (strL "ca.example.net")) 60) := by
  decide

/-- Claim C5 (amended): for MX, SRV and SSHFP, a group containing any raw
    value that fails the type's grammar decodes to a fatal error (no
    descriptor); for CAA only the first raw value is consulted, so the
    decode is fatal exactly when the first raw value fails the CAA grammar,
    while malformed later values are ignored. -/
theorem claim_C5_amended :
    (∀ t g, (∃ rv ∈ g.raw_values, matchMX rv.value = none) →
      _data_for_MX t g = none) ∧
    (∀ t g, (∃ rv ∈ g.raw_values, matchSRV rv.value = none) →
      _data_for_SRV t g = none) ∧
    (∀ t g, (∃ rv ∈ g.raw_values, matchSSHFP rv.value = none) →
      _data_for_SSHFP t g = none) ∧
    (∀ t g rv rest, g.raw_values = rv :: rest → matchCAA rv.value = none →
      _data_for_CAA t g = none) := by
  refine ⟨?_, ?_, ?_, ?_⟩
  · rintro t g ⟨rv, hmem, hnone⟩
    have hopt : optMap (fun x => mxValueFor g.zone x.value) g.raw_values = none :=
      optMap_eq_none_of_mem hmem (by unfold mxValueFor; rw [hnone])
    cases hgr : g.raw_values with
    | nil => rw [hgr] at hmem; cases hmem
    | cons y ys =>
      unfold _data_for_MX
      rw [hgr]
      dsimp only
      rw [← hgr, hopt]
  · rintro t g ⟨rv, hmem, hnone⟩
    have hopt : optMap (fun x => srvValueFor g.zone x.value) g.raw_values = none :=
      optMap_eq_none_of_mem hmem (by unfold srvValueFor; rw [hnone])
    cases hgr : g.raw_values with
    | nil => rw [hgr] at hmem; cases hmem
    | cons y ys =>
      unfold _data_for_SRV
      rw [hgr]
      dsimp only
      rw [← hgr, hopt]
  · rintro t g ⟨rv, hmem, hnone⟩
    have hopt : optMap (fun x => sshfpValueFor x.value) g.raw_values = none :=
      optMap_eq_none_of_mem hmem (by unfold sshfpValueFor; rw [hnone])
    cases hgr : g.raw_values with
    | nil => rw [hgr] at hmem; cases hmem
    | cons y ys =>
      unfold _data_for_SSHFP
      rw [hgr]
      dsimp only
      rw [← hgr, hopt]
  · intro t g rv rest hg hnone
    unfold _data_for_CAA
    rw [hg]
    dsimp only
    rw [hnone]

/-- Claim C5 witness: concrete malformed values are fatal for each of the
    four structured decoders. -/
theorem claim_C5_witness :
    _data_for_MX (strL "MX")
        ⟨strL "m", strL "example.com.", [⟨strL "10", 60⟩]⟩ = none ∧
    _data_for_SRV (strL "SRV")
        ⟨strL "s", strL "example.com.", [⟨strL "1 2 3", 60⟩]⟩ = none ∧
    _data_for_SSHFP (strL "f")
        ⟨strL "f", strL "example.com.", [⟨strL "1 2", 60⟩]⟩ = none ∧
    _data_for_CAA (strL "CAA")
        ⟨strL "c", strL "example.com.", [⟨strL "junk", 60⟩]⟩ = none := by
  refine ⟨?_, ?_, ?_, ?_⟩
  · exact claim_C5_amended.1 _ _ ⟨⟨strL "10", 60⟩, by decide, by decide⟩
  · exact claim_C5_amended.2.1 _ _ ⟨⟨strL "1 2 3", 60⟩, by decide, by decide⟩
  · exact claim_C5_amended.2.2.1 _ _ ⟨⟨strL "1 2", 60⟩, by decide, by decide⟩
  · exact claim_C5_amended.2.2.2 _ _ _ _ rfl (by decide)

/-- Claim C4 counterexample: the ALIAS decode (`_data_for_ANAME`) does NOT
    qualify a relative value — the relative raw value `"server"` under zone
    `"example.com."` is decoded unchanged, not as `"server.example.com."`. -/
theorem claim_C4_counterexample :
    _data_for_ANAME (strL "ANAME")
        ⟨strL "app", strL "example.com.", [⟨strL "server", 120⟩]⟩ =
      some (.single (strL "ALIAS") (.plain (strL "server")) 120) ∧
    endsWithDot (strL "server") = false ∧
    strL "server" ≠ strL "server.example.com." := by
  decide

/-- Claim C4 (amended): in the structured decoders for MX (exchange), SRV
    (target) and CNAME (value), a value that does not end with `'.'` has
    `'.'` plus the zone name appended and a value that already ends with
    `'.'` is left unchanged; the ALIAS/ANAME decoder, by contrast, never
    qualifies its value. -/
theorem claim_C4_amended :
    (∀ z v : Str, endsWithDot v = false → qualify z v = v ++ '.' :: z) ∧
    (∀ z v : Str, endsWithDot v = true → qualify z v = v) ∧
    (∀ z raw p e, matchMX raw = some (p, e) →
      mxValueFor z raw = some (.mx p (qualify z e))) ∧
    (∀ z raw p w pt tg, matchSRV raw = some (p, w, pt, tg) →
      srvValueFor z raw = some (.srv p w pt (qualify z tg))) ∧
    (∀ t g d, _data_for_MX t g = some d → ∀ rv ∈ g.raw_values,
      ∀ p e, matchMX rv.value = some (p, e) →
        RValue.mx p (qualify g.zone e) ∈ d.valueList) ∧
    (∀ t g d, _data_for_SRV t g = some d → ∀ rv ∈ g.raw_values,
      ∀ p w pt tg, matchSRV rv.value = some (p, w, pt, tg) →
        RValue.srv p w pt (qualify g.zone tg) ∈ d.valueList) ∧
    (∀ t g rv rest, g.raw_values = rv :: rest →
      _data_for_CNAME t g =
        some (.single t (.plain (qualify g.zone rv.value)) rv.ttl)) ∧
    (∀ t g rv rest, g.raw_values = rv :: rest →
      _data_for_ANAME t g =
        some (.single (strL "ALIAS") (.plain rv.value) rv.ttl)) := by
  refine ⟨?_, ?_, ?_, ?_, ?_, ?_, ?_, ?_⟩
  · intro z v h
    unfold qualify
    rw [if_neg (by simp [h])]
  · intro z v h
    unfold qualify
    rw [if_pos h]
  · intro z raw p e h
    unfold mxValueFor
    rw [h]
  · intro z raw p w pt tg h
    unfold srvValueFor
    rw [h]
  · intro t g d hd rv hmem p e hmatch
    cases hgr : g.raw_values with
    | nil => rw [hgr] at hmem; cases hmem
    | cons y ys =>
      unfold _data_for_MX at hd
      rw [hgr] at hd
      dsimp only at hd
      rw [← hgr] at hd
      cases hm : optMap (fun x => mxValueFor g.zone x.value) g.raw_values with
      | none => rw [hm] at hd; cases hd
      | some vs =>
        rw [hm] at hd
        injection hd with hd
        have hb : RValue.mx p (qualify g.zone e) ∈ vs :=
          mem_of_optMap_some hm hmem (by unfold mxValueFor; rw [hmatch])
        rw [← hd]
        exact hb
  · intro t g d hd rv hmem p w pt tg hmatch
    cases hgr : g.raw_values with
    | nil => rw [hgr] at hmem; cases hmem
    | cons y ys =>
      unfold _data_for_SRV at hd
      rw [hgr] at hd
      dsimp only at hd
      rw [← hgr] at hd
      cases hm : optMap (fun x => srvValueFor g.zone x.value) g.raw_values with
      | none => rw [hm] at hd; cases hd
      | some vs =>
        rw [hm] at hd
        injection hd with hd
        have hb : RValue.srv p w pt (qualify g.zone tg) ∈ vs :=
          mem_of_optMap_some hm hmem (by unfold srvValueFor; rw [hmatch])
        rw [← hd]
        exact hb
  · intro t g rv rest hg
    unfold _data_for_CNAME
    rw [hg]
    rfl
  · intro t g rv rest hg
    unfold _data_for_ANAME
    rw [hg]
    rfl

/-- Claim C4 witness: concrete qualification behaviour for a relative and
    an absolute name, an MX loop-body value, and a CNAME decode. -/
theorem claim_C4_witness :
    qualify (strL "example.com.") (strL "mail") = strL "mail.example.com." ∧
    qualify (strL "example.com.") (strL "mail.example.com.") =
      strL "mail.example.com." ∧
    mxValueFor (strL "example.com.") (strL "10 mail") =
      some (.mx (strL "10") (qualify (strL "example.com.") (strL "mail"))) ∧
    _data_for_CNAME (strL "CNAME")
        ⟨strL "c", strL "example.com.", [⟨strL "web", 45⟩]⟩ =
      some (.single (strL "CNAME")
        (.plain (qualify (strL "example.com.") (strL "web"))) 45) := by
  refine ⟨?_, ?_, ?_, ?_⟩
  · exact (claim_C4_amended.1 (strL "example.com.") (strL "mail")
      (by decide)).trans (by decide)
  · exact claim_C4_amended.2.1 (strL "example.com.") (strL "mail.example.com.")
      (by decide)
  · exact claim_C4_amended.2.2.1 (strL "example.com.") (strL "10 mail")
      (strL "10") (strL "mail") (by decide)
  · exact claim_C4_amended.2.2.2.2.2.2.1 (strL "CNAME")
      ⟨strL "c", strL "example.com.", [⟨strL "web", 45⟩]⟩ ⟨strL "web", 45⟩ [] rfl

lemma processLine_skip (zone : Str) (gs : Groups) (line : Str)
    (h : parseLine line = none ∨ ∀ owner ttl t v,
        parseLine line = some (owner, ttl, t, v) → lookupDataFor t = none) :
    processLine zone gs line = gs := by
  unfold processLine
  cases hp : parseLine line with
  | none => rfl
  | some q =>
    obtain ⟨owner, ttl, t, v⟩ := q
    rcases h with h | h
    · rw [hp] at h
      cases h
    · have hl := h owner ttl t v hp
      dsimp only
      rw [hl]
      rfl

lemma populate_skip_line (zone : Str) (pre post : List Str) (line : Str)
    (h : parseLine line = none ∨ ∀ owner ttl t v,
        parseLine line = some (owner, ttl, t, v) → lookupDataFor t = none) :
    populateModel zone (pre ++ line :: post) = populateModel zone (pre ++ post) := by
  unfold populateModel
  rw [List.foldl_append, List.foldl_append, List.foldl_cons,
      processLine_skip zone _ line h]

/-- Claim C6: a LIST line that fails the line grammar, or whose TYPE has no
    registered decoder, is skipped without error: the decode pass over the
    listing with that line inserted anywhere equals the decode pass without
    it (so the line produces zero descriptors and does not affect the
    decoding of the remaining lines). -/
theorem claim_C6 (zone : Str) (pre post : List Str) (line : Str)
    (h : parseLine line = none ∨ ∀ owner ttl t v,
        parseLine line = some (owner, ttl, t, v) → lookupDataFor t = none) :
    populateModel zone (pre ++ line :: post) = populateModel zone (pre ++ post) ∧
    populateModel zone [line] = [] := by
  refine ⟨populate_skip_line zone pre post line h, ?_⟩
  exact (populate_skip_line zone [] [] line h).trans rfl

/-- Claim C6 witness: an unparseable line between two good lines, and a
    line with the unsupported type `WEIRD`. -/
theorem claim_C6_witness :
    (populateModel (strL "example.com.")
        [strL "@ 300 A 1.2.3.4", strL "garbage", strL "www 60 TXT hello"] =
      populateModel (strL "example.com.")
        [strL "@ 300 A 1.2.3.4", strL "www 60 TXT hello"]) ∧
    populateModel (strL "example.com.") [strL "x 60 WEIRD v"] = [] := by
  constructor
  · exact (claim_C6 (strL "example.com.") [strL "@ 300 A 1.2.3.4"]
      [strL "www 60 TXT hello"] (strL "garbage") (Or.inl (by decide))).1
  · refine (claim_C6 (strL "example.com.") [] [] (strL "x 60 WEIRD v")
      (Or.inr ?_)).2
    intro owner ttl t v hp
    have h0 : parseLine (strL "x 60 WEIRD v") =
        some (strL "x", 60, strL "WEIRD", strL "v") := by decide
    rw [h0] at hp
    injection hp with hq
    injection hq with e1 e2
    injection e2 with e3 e4
    injection e4 with e5 e6
    rw [← e5]
    rfl

/-- Claim C7: for every Update change, the posted command sequence is
    exactly the full DELETE command list compiled from the existing record
    followed by the full ADD command list compiled from the new record, in
    that order, appended to the prior log with no interleaving. -/
theorem claim_C7 (ch : Change) (log out : List Str)
    (h : _apply_Update ch log = some out) :
    ∃ dels adds, _compile_commands (strL "DELETE") ch = some dels ∧
      _compile_commands (strL "ADD") ch = some adds ∧
      out = (log ++ dels) ++ adds := by
  unfold _apply_Update _apply_Delete _apply_Create at h
  cases hd : _compile_commands (strL "DELETE") ch with
  | none => rw [hd] at h; cases h
  | some dels =>
    rw [hd] at h
    dsimp only at h
    cases ha : _compile_commands (strL "ADD") ch with
    | none => rw [ha] at h; cases h
    | some adds =>
      rw [ha] at h
      injection h with h
      exact ⟨dels, adds, rfl, rfl, h.symm⟩

/-- Claim C7 witness: updating an A record from value 9.9.9.9 (ttl 120) to
    8.8.8.8 (ttl 60) posts exactly the DELETE command then the ADD
    command. -/
theorem claim_C7_witness :
    ∃ dels adds,
      _compile_commands (strL "DELETE")
          ⟨some ⟨strL "mail.example.com.", 120, strL "A", [.plain (strL "9.9.9.9")]⟩,
           some ⟨strL "mail.example.com.", 60, strL "A", [.plain (strL "8.8.8.8")]⟩⟩ =
        some dels ∧
      _compile_commands (strL "ADD")
          ⟨some ⟨strL "mail.example.com.", 120, strL "A", [.plain (strL "9.9.9.9")]⟩,
           some ⟨strL "mail.example.com.", 60, strL "A", [.plain (strL "8.8.8.8")]⟩⟩ =
        some adds ∧
      [strL "DELETE mail.example.com 120 A 9.9.9.9",
       strL "ADD mail.example.com 60 A 8.8.8.8"] = (([] : List Str) ++ dels) ++ adds :=
  claim_C7
    ⟨some ⟨strL "mail.example.com.", 120, strL "A", [.plain (strL "9.9.9.9")]⟩,
     some ⟨strL "mail.example.com.", 60, strL "A", [.plain (strL "8.8.8.8")]⟩⟩
    [] _ (by decide)
